import Mathlib

/-!
Verification development for the space-web server (`server.go`): a 2D
gravitational simulation whose state is a registry mapping websocket
connections to entities, advanced by a fixed-timestep integrator and
broadcast to all connected sessions each tick.

The embedding below translates the Go source into Lean: float64
arithmetic is modelled by real numbers, the `clients` map by an
association list keyed by an abstract connection identifier, the
websocket write by a per-connection failure flag, and JSON
serialization by an abstract function that can fail.
-/

namespace SpaceWeb

/-- The type `Vector2` from `server.go` (2D coordinates, float64
components modelled as reals). -/
@[ext]
structure Vector2 where
  x : ℝ
  y : ℝ

/-- Gravitational constant `G = 0.0001` from the `const` block. -/
noncomputable def G : ℝ := 0.0001

/-- `StarMass = 1000000`, the mass of the central star. -/
noncomputable def StarMass : ℝ := 1000000

/-- `MinDistance = 10`, minimum initial distance from the star. -/
noncomputable def MinDistance : ℝ := 10

/-- `MaxDistance = 100`, maximum initial distance from the star. -/
noncomputable def MaxDistance : ℝ := 100

/-- `TimeStep = 0.016`, the simulation step (the source comments it as
approx 60 FPS). -/
noncomputable def TimeStep : ℝ := 0.016

/-- The type `Entity` from `server.go`: one client's state. -/
@[ext]
structure Entity where
  id : String
  position : Vector2
  velocity : Vector2
  connected : Bool

/-- The radial distance computed inside `gravitationalAccel`:
`math.Sqrt(pos.X*pos.X + pos.Y*pos.Y)`. -/
noncomputable def vecMag (v : Vector2) : ℝ :=
  Real.sqrt (v.x * v.x + v.y * v.y)

/-- `gravitationalAccel` from `server.go`: central inverse-square
acceleration with the radius clamped below at 0.1 before the division. -/
noncomputable def gravitationalAccel (pos : Vector2) : Vector2 :=
  let r0 := vecMag pos
  let r := if r0 < 0.1 then 0.1 else r0
  let force := -G * StarMass / (r * r)
  let unitX := pos.x / r
  let unitY := pos.y / r
  ⟨force * unitX, force * unitY⟩

/-- The per-entity physics update from the body of `broadcastUpdates`:
velocity is updated from the acceleration at the current position, then
position is advanced using the new velocity (semi-implicit Euler). -/
noncomputable def stepEntity (e : Entity) : Entity :=
  let accel := gravitationalAccel e.position
  let vx := e.velocity.x + accel.x * TimeStep
  let vy := e.velocity.y + accel.y * TimeStep
  let px := e.position.x + vx * TimeStep
  let py := e.position.y + vy * TimeStep
  { e with velocity := ⟨vx, vy⟩, position := ⟨px, py⟩ }

/-- Abstract identifier standing for a `*websocket.Conn` map key. -/
abbrev Conn := ℕ

/-- The `clients` map from `server.go`, modelled as an association
list from connection to entity. -/
abbrev Registry := List (Conn × Entity)

/-- Go map assignment `clients[conn] = entity`: replace the binding if
the key is present, otherwise add it. -/
def setEntry : Registry → Conn → Entity → Registry
  | [], c, e => [(c, e)]
  | (c', e') :: rest, c, e =>
      if c' = c then (c, e) :: rest else (c', e') :: setEntry rest c e

/-- Go map deletion `delete(clients, conn)`. -/
def delEntry : Registry → Conn → Registry
  | [], _ => []
  | (c', e') :: rest, c =>
      if c' = c then delEntry rest c else (c', e') :: delEntry rest c

/-- Go map lookup `clients[conn]`. -/
def getEntry? : Registry → Conn → Option Entity
  | [], _ => none
  | (c', e') :: rest, c => if c' = c then some e' else getEntry? rest c

/-- The physics loop of `broadcastUpdates`: every connected entity is
stepped in place; disconnected entries are skipped (`continue`). -/
noncomputable def applyPhysics (reg : Registry) : Registry :=
  reg.map fun ce => if ce.2.connected then (ce.1, stepEntity ce.2) else ce

/-- The snapshot loop of `broadcastUpdates`: the `entities` slice is
built from every map entry, connected or not. -/
def snapshot (reg : Registry) : List Entity := reg.map Prod.snd

/-- The type `ClientUpdate` from `server.go` (the payload handed to
`json.Marshal`). -/
structure ClientUpdate where
  entities : List Entity

/-- The write-failure handling in the fan-out loop: the entity is
stored back with `Connected = false`. -/
def disconnect (e : Entity) : Entity := { e with connected := false }

/-- The fan-out loop of `broadcastUpdates`: for each connected entry
the serialized data is written to its connection; a failed write marks
that entry disconnected in the registry and the loop continues.  The
second component collects the successful writes. -/
def fanOut (writeFails : Conn → Bool) (data : String) :
    Registry → Registry × List (Conn × String)
  | [] => ([], [])
  | (c, e) :: rest =>
      let r := fanOut writeFails data rest
      if e.connected then
        if writeFails c then ((c, disconnect e) :: r.1, r.2)
        else ((c, e) :: r.1, (c, data) :: r.2)
      else ((c, e) :: r.1, r.2)

/-- One firing of the ticker in `broadcastUpdates`: physics over the
whole registry, snapshot, serialization (abstracted by `marshal`; on
failure the tick stops after the already-applied physics, writing
nothing), then fan-out. -/
noncomputable def tick (marshal : ClientUpdate → Option String)
    (writeFails : Conn → Bool) (reg : Registry) :
    Registry × List (Conn × String) :=
  match marshal ⟨snapshot (applyPhysics reg)⟩ with
  | none => (applyPhysics reg, [])
  | some data => fanOut writeFails data (applyPhysics reg)

/-- `randomPosition` from `server.go`, with the two `rand.Float64()`
draws (uniform in [0,1)) passed in as arguments. -/
noncomputable def randomPosition (u1 u2 : ℝ) : Vector2 :=
  let theta := u1 * 2 * Real.pi
  let r := MinDistance + u2 * (MaxDistance - MinDistance)
  ⟨r * Real.cos theta, r * Real.sin theta⟩

/-- Decimal digit characters, as produced by Go's `%d` formatting. -/
def digitChar (d : ℕ) : Char := Char.ofNat (48 + d)

/-- Little-endian decimal digits of `n`, with structural fuel so that
the definition computes by kernel reduction. -/
def digitsRev : ℕ → ℕ → List ℕ
  | 0, _ => []
  | _ + 1, 0 => []
  | fuel + 1, n + 1 => (n + 1) % 10 :: digitsRev fuel ((n + 1) / 10)

/-- Little-endian decimal digits of `n` (`n` itself is enough fuel). -/
def decDigits (n : ℕ) : List ℕ := digitsRev n n

/-- Reassemble a little-endian decimal digit list into a number. -/
def ofDecDigits : List ℕ → ℕ
  | [] => 0
  | d :: l => d + 10 * ofDecDigits l

/-- The id string produced at registration time,
`fmt.Sprintf("%d", time.Now().UnixNano())`: the decimal representation
of the timestamp. -/
def decRepr (n : ℕ) : String :=
  if n = 0 then "0" else ⟨(decDigits n).reverse.map digitChar⟩

/-- The entity built in `wsHandler` at registration: timestamp-derived
id, random position, zero velocity, connected. -/
noncomputable def newEntity (ts : ℕ) (u1 u2 : ℝ) : Entity :=
  { id := decRepr ts
    position := randomPosition u1 u2
    velocity := ⟨0, 0⟩
    connected := true }

/-- The registration step of `wsHandler`: `clients[conn] = entity`
under the lock. -/
noncomputable def register (reg : Registry) (c : Conn) (ts : ℕ)
    (u1 u2 : ℝ) : Registry :=
  setEntry reg c (newEntity ts u1 u2)

/-- A registry operation: a session registering (with its timestamp
and random draws) or deregistering.  The mutex serializes these, so a
concurrent history is a sequence. -/
inductive Op where
  | reg (c : Conn) (ts : ℕ) (u1 u2 : ℝ)
  | dereg (c : Conn)

/-- Apply one registry operation. -/
noncomputable def applyOp (r : Registry) : Op → Registry
  | .reg c ts u1 u2 => register r c ts u1 u2
  | .dereg c => delEntry r c

/-- Run a serialized history of registry operations from the empty
registry (the initial `clients` map). -/
noncomputable def run (ops : List Op) : Registry := ops.foldl applyOp []

/-- The timestamps consumed by the registrations in a history. -/
def regTs : Op → List ℕ
  | .reg _ ts _ _ => [ts]
  | .dereg _ => []

/-- All registration timestamps of a history, in order. -/
def allTs (ops : List Op) : List ℕ := (ops.map regTs).flatten

/-! ### Basic facts about the vector magnitude and the acceleration -/

lemma sqrt_eval {a b : ℝ} (hb : 0 ≤ b) (h : b * b = a) : Real.sqrt a = b := by
  rw [← h, Real.sqrt_mul_self hb]

lemma vecMag_nonneg (v : Vector2) : 0 ≤ vecMag v := Real.sqrt_nonneg _

lemma mul_self_vecMag (v : Vector2) :
    vecMag v * vecMag v = v.x * v.x + v.y * v.y :=
  Real.mul_self_sqrt (add_nonneg (mul_self_nonneg _) (mul_self_nonneg _))

lemma vecMag_scale (k x y : ℝ) :
    vecMag ⟨k * x, k * y⟩ = |k| * vecMag ⟨x, y⟩ := by
  unfold vecMag
  rw [show k * x * (k * x) + k * y * (k * y) = k ^ 2 * (x * x + y * y) by ring,
    Real.sqrt_mul (sq_nonneg k), Real.sqrt_sq_eq_abs]

lemma vecMag_eta (p : Vector2) : vecMag ⟨p.x, p.y⟩ = vecMag p := rfl

lemma hGM : G * StarMass = 100 := by norm_num [G, StarMass]

lemma gravAccel_def (p : Vector2) :
    gravitationalAccel p =
      ⟨-G * StarMass /
          ((if vecMag p < 0.1 then 0.1 else vecMag p) *
            (if vecMag p < 0.1 then 0.1 else vecMag p)) *
          (p.x / (if vecMag p < 0.1 then 0.1 else vecMag p)),
        -G * StarMass /
          ((if vecMag p < 0.1 then 0.1 else vecMag p) *
            (if vecMag p < 0.1 then 0.1 else vecMag p)) *
          (p.y / (if vecMag p < 0.1 then 0.1 else vecMag p))⟩ := rfl

lemma gravAccel_of_ge {p : Vector2} (h : 0.1 ≤ vecMag p) :
    gravitationalAccel p =
      ⟨-G * StarMass / (vecMag p * vecMag p) * (p.x / vecMag p),
        -G * StarMass / (vecMag p * vecMag p) * (p.y / vecMag p)⟩ := by
  simp only [gravAccel_def, if_neg (not_lt.mpr h)]

lemma gravAccel_of_lt {p : Vector2} (h : vecMag p < 0.1) :
    gravitationalAccel p =
      ⟨-G * StarMass / (0.1 * 0.1) * (p.x / 0.1),
        -G * StarMass / (0.1 * 0.1) * (p.y / 0.1)⟩ := by
  simp only [gravAccel_def, if_pos h]

/-- C2: for every position with magnitude at least 0.1, the
acceleration has magnitude G*StarMass/|p|^2 and points toward the
origin along the unit vector -p/|p|. -/
theorem accel_inverse_square (p : Vector2) (h : 0.1 ≤ vecMag p) :
    vecMag (gravitationalAccel p) = G * StarMass / (vecMag p) ^ 2 ∧
    gravitationalAccel p =
      ⟨G * StarMass / (vecMag p) ^ 2 * (-p.x / vecMag p),
        G * StarMass / (vecMag p) ^ 2 * (-p.y / vecMag p)⟩ := by
  have hr : (0 : ℝ) < vecMag p := lt_of_lt_of_le (by norm_num) h
  have hrne : vecMag p ≠ 0 := ne_of_gt hr
  have hGM' : -G * StarMass = -100 := by norm_num [G, StarMass]
  constructor
  · have hk : gravitationalAccel p =
        ⟨-100 / (vecMag p * vecMag p * vecMag p) * p.x,
          -100 / (vecMag p * vecMag p * vecMag p) * p.y⟩ := by
      rw [gravAccel_of_ge h]
      ext
      · show -G * StarMass / (vecMag p * vecMag p) * (p.x / vecMag p) = _
        rw [hGM']; field_simp
      · show -G * StarMass / (vecMag p * vecMag p) * (p.y / vecMag p) = _
        rw [hGM']; field_simp
    rw [hk, vecMag_scale]
    simp only [vecMag_eta]
    have habs : |(-100 : ℝ) / (vecMag p * vecMag p * vecMag p)| =
        100 / (vecMag p * vecMag p * vecMag p) := by
      rw [abs_div, abs_of_pos (by positivity : (0:ℝ) < vecMag p * vecMag p * vecMag p)]
      norm_num
    rw [habs, hGM]
    field_simp
    ring
  · rw [gravAccel_of_ge h]
    ext
    · show -G * StarMass / (vecMag p * vecMag p) * (p.x / vecMag p) =
        G * StarMass / (vecMag p) ^ 2 * (-p.x / vecMag p)
      ring
    · show -G * StarMass / (vecMag p * vecMag p) * (p.y / vecMag p) =
        G * StarMass / (vecMag p) ^ 2 * (-p.y / vecMag p)
      ring

theorem accel_inverse_square_witness :
    (0.1 : ℝ) ≤ vecMag ⟨3, 4⟩ ∧
    vecMag (gravitationalAccel ⟨3, 4⟩) = G * StarMass / (vecMag ⟨3, 4⟩) ^ 2 := by
  have h5 : vecMag ⟨3, 4⟩ = 5 := sqrt_eval (by norm_num) (by norm_num)
  have h : (0.1 : ℝ) ≤ vecMag ⟨3, 4⟩ := by rw [h5]; norm_num
  exact ⟨h, (accel_inverse_square ⟨3, 4⟩ h).1⟩

/-- C1 (corrected): for positions with magnitude below the softening
floor the acceleration is the clamped-radius value additionally scaled
by the factor magnitude/0.1; it is never singular and its magnitude
never exceeds G*StarMass/0.1^2. -/
theorem softening_floor_amended (p : Vector2) (h : vecMag p < 0.1) :
    gravitationalAccel p =
      ⟨-(G * StarMass / (0.1 * 0.1)) * (p.x / 0.1),
        -(G * StarMass / (0.1 * 0.1)) * (p.y / 0.1)⟩ ∧
    vecMag (gravitationalAccel p) = G * StarMass / (0.1 * 0.1) * (vecMag p / 0.1) ∧
    vecMag (gravitationalAccel p) ≤ G * StarMass / (0.1 * 0.1) := by
  have hneg : -G * StarMass = -100 := by norm_num [G, StarMass]
  have hmag : vecMag (gravitationalAccel p) =
      G * StarMass / (0.1 * 0.1) * (vecMag p / 0.1) := by
    have hk : gravitationalAccel p =
        ⟨-100000 * p.x, -100000 * p.y⟩ := by
      rw [gravAccel_of_lt h]
      ext
      · show -G * StarMass / (0.1 * 0.1) * (p.x / 0.1) = _
        rw [hneg]; norm_num; ring
      · show -G * StarMass / (0.1 * 0.1) * (p.y / 0.1) = _
        rw [hneg]; norm_num; ring
    rw [hk, vecMag_scale]
    simp only [vecMag_eta]
    rw [hGM]
    norm_num
    ring
  refine ⟨?_, hmag, ?_⟩
  · rw [gravAccel_of_lt h]
    ext
    · show -G * StarMass / (0.1 * 0.1) * (p.x / 0.1) = _
      ring
    · show -G * StarMass / (0.1 * 0.1) * (p.y / 0.1) = _
      ring
  · rw [hmag, hGM]
    have := vecMag_nonneg p
    have h1 : vecMag p / 0.1 ≤ 1 := by
      rw [div_le_one (by norm_num)]
      linarith
    nlinarith

theorem softening_floor_amended_witness :
    vecMag ⟨0.05, 0⟩ < 0.1 ∧
    vecMag (gravitationalAccel ⟨0.05, 0⟩) ≤ G * StarMass / (0.1 * 0.1) := by
  have h05 : vecMag ⟨0.05, 0⟩ = 0.05 := sqrt_eval (by norm_num) (by norm_num)
  have h : vecMag ⟨0.05, 0⟩ < 0.1 := by rw [h05]; norm_num
  exact ⟨h, (softening_floor_amended ⟨0.05, 0⟩ h).2.2⟩

/-- C1 counterexample: at position (0.05, 0) the code returns
(-5000, 0), while the acceleration at the position of magnitude
exactly 0.1 in the same direction, (0.1, 0), is (-10000, 0); the two
differ, so the claimed equality fails. -/
theorem softening_floor_cex :
    gravitationalAccel ⟨0.05, 0⟩ = ⟨-5000, 0⟩ ∧
    gravitationalAccel ⟨0.1, 0⟩ = ⟨-10000, 0⟩ ∧
    gravitationalAccel ⟨0.05, 0⟩ ≠ gravitationalAccel ⟨0.1, 0⟩ := by
  have h05 : vecMag ⟨0.05, 0⟩ = 0.05 := sqrt_eval (by norm_num) (by norm_num)
  have h01 : vecMag ⟨0.1, 0⟩ = 0.1 := sqrt_eval (by norm_num) (by norm_num)
  have hA : gravitationalAccel ⟨0.05, 0⟩ = ⟨-5000, 0⟩ := by
    rw [gravAccel_of_lt (by rw [h05]; norm_num)]
    ext
    · show -G * StarMass / (0.1 * 0.1) * ((0.05 : ℝ) / 0.1) = -5000
      norm_num [G, StarMass]
    · show -G * StarMass / (0.1 * 0.1) * ((0 : ℝ) / 0.1) = 0
      norm_num
  have hB : gravitationalAccel ⟨0.1, 0⟩ = ⟨-10000, 0⟩ := by
    rw [gravAccel_of_ge (by rw [h01])]
    ext
    · show -G * StarMass / (vecMag ⟨0.1, 0⟩ * vecMag ⟨0.1, 0⟩) *
          ((0.1 : ℝ) / vecMag ⟨0.1, 0⟩) = -10000
      rw [h01]; norm_num [G, StarMass]
    · show -G * StarMass / (vecMag ⟨0.1, 0⟩ * vecMag ⟨0.1, 0⟩) *
          ((0 : ℝ) / vecMag ⟨0.1, 0⟩) = 0
      norm_num
  refine ⟨hA, hB, ?_⟩
  rw [hA, hB]
  intro hEq
  have := congrArg Vector2.x hEq
  norm_num at this

/-- C10: the acceleration is total; at the exact origin it returns the
zero vector, and the radius actually divided by is always at least
0.1, so no division by zero ever occurs. -/
theorem accel_total_at_origin :
    gravitationalAccel ⟨0, 0⟩ = ⟨0, 0⟩ ∧
    ∀ p : Vector2, 0.1 ≤ (if vecMag p < 0.1 then 0.1 else vecMag p) := by
  constructor
  · have h0 : vecMag ⟨0, 0⟩ = 0 := sqrt_eval le_rfl (by norm_num)
    rw [gravAccel_of_lt (by rw [h0]; norm_num)]
    ext
    · show -G * StarMass / (0.1 * 0.1) * ((0 : ℝ) / 0.1) = 0
      norm_num
    · show -G * StarMass / (0.1 * 0.1) * ((0 : ℝ) / 0.1) = 0
      norm_num
  · intro p
    split_ifs with hp
    · exact le_rfl
    · exact le_of_not_lt hp

/-! ### The per-tick integration step -/

lemma stepEntity_def (e : Entity) :
    stepEntity e = { e with
      velocity := ⟨e.velocity.x + (gravitationalAccel e.position).x * TimeStep,
        e.velocity.y + (gravitationalAccel e.position).y * TimeStep⟩,
      position := ⟨e.position.x +
          (e.velocity.x + (gravitationalAccel e.position).x * TimeStep) * TimeStep,
        e.position.y +
          (e.velocity.y + (gravitationalAccel e.position).y * TimeStep) * TimeStep⟩ } :=
  rfl

/-- C3: every connected entity is advanced by one semi-implicit Euler
step, velocity first from the current position, then position from the
new velocity; in the concrete scenario at position (10,0) with zero
velocity the acceleration is (-1,0), the new velocity (-0.016,0), and
the new position (9.999744, 0) exactly. -/
theorem euler_step_order :
    (∀ (reg : Registry) (c : Conn) (e : Entity),
        (c, e) ∈ reg → e.connected = true → (c, stepEntity e) ∈ applyPhysics reg) ∧
    (∀ e : Entity,
        (stepEntity e).velocity =
          ⟨e.velocity.x + (gravitationalAccel e.position).x * TimeStep,
            e.velocity.y + (gravitationalAccel e.position).y * TimeStep⟩ ∧
        (stepEntity e).position =
          ⟨e.position.x + (stepEntity e).velocity.x * TimeStep,
            e.position.y + (stepEntity e).velocity.y * TimeStep⟩) ∧
    gravitationalAccel ⟨10, 0⟩ = ⟨-1, 0⟩ ∧
    stepEntity ⟨"demo", ⟨10, 0⟩, ⟨0, 0⟩, true⟩ =
      ⟨"demo", ⟨9.999744, 0⟩, ⟨-0.016, 0⟩, true⟩ := by
  have h10 : vecMag ⟨10, 0⟩ = 10 := sqrt_eval (by norm_num) (by norm_num)
  have haccel : gravitationalAccel ⟨10, 0⟩ = ⟨-1, 0⟩ := by
    rw [gravAccel_of_ge (by rw [h10]; norm_num)]
    ext
    · show -G * StarMass / (vecMag ⟨10, 0⟩ * vecMag ⟨10, 0⟩) *
          ((10 : ℝ) / vecMag ⟨10, 0⟩) = -1
      rw [h10]; norm_num [G, StarMass]
    · show -G * StarMass / (vecMag ⟨10, 0⟩ * vecMag ⟨10, 0⟩) *
          ((0 : ℝ) / vecMag ⟨10, 0⟩) = 0
      norm_num
  have hax : (gravitationalAccel ⟨10, 0⟩).x = -1 := by rw [haccel]
  have hay : (gravitationalAccel ⟨10, 0⟩).y = 0 := by rw [haccel]
  refine ⟨?_, ?_, haccel, ?_⟩
  · intro reg c e hmem hconn
    unfold applyPhysics
    have := List.mem_map_of_mem
      (fun ce : Conn × Entity =>
        if ce.2.connected then (ce.1, stepEntity ce.2) else ce) hmem
    simpa [hconn] using this
  · intro e
    exact ⟨rfl, rfl⟩
  · rw [stepEntity_def]
    ext
    · rfl
    · show (10 : ℝ) + ((0 : ℝ) + (gravitationalAccel ⟨10, 0⟩).x * TimeStep) * TimeStep
          = 9.999744
      rw [hax]; norm_num [TimeStep]
    · show (0 : ℝ) + ((0 : ℝ) + (gravitationalAccel ⟨10, 0⟩).y * TimeStep) * TimeStep
          = 0
      rw [hay]; norm_num
    · show (0 : ℝ) + (gravitationalAccel ⟨10, 0⟩).x * TimeStep = -0.016
      rw [hax]; norm_num [TimeStep]
    · show (0 : ℝ) + (gravitationalAccel ⟨10, 0⟩).y * TimeStep = 0
      rw [hay]; norm_num
    · rfl

theorem euler_step_order_witness :
    ((0 : Conn), stepEntity ⟨"demo", ⟨10, 0⟩, ⟨0, 0⟩, true⟩) ∈
      applyPhysics [((0 : Conn), ⟨"demo", ⟨10, 0⟩, ⟨0, 0⟩, true⟩)] :=
  euler_step_order.1 _ 0 _ (by simp) rfl

/-- C8 counterexample: the integration timestep constant is 0.016,
which is not 1/60. -/
theorem timestep_cex : TimeStep ≠ 1 / 60 := by
  norm_num [TimeStep]

/-- C8 (corrected): the timestep used by the per-tick update is the
fixed constant TimeStep = 0.016, identical in every velocity and
position update and independent of any clock. -/
theorem timestep_fixed :
    TimeStep = 0.016 ∧
    ∀ e : Entity,
      (stepEntity e).velocity =
        ⟨e.velocity.x + (gravitationalAccel e.position).x * TimeStep,
          e.velocity.y + (gravitationalAccel e.position).y * TimeStep⟩ ∧
      (stepEntity e).position =
        ⟨e.position.x + (stepEntity e).velocity.x * TimeStep,
          e.position.y + (stepEntity e).velocity.y * TimeStep⟩ :=
  ⟨rfl, fun _ => ⟨rfl, rfl⟩⟩

/-! ### The broadcast tick: physics, serialization, fan-out -/

lemma applyPhysics_map_fst (reg : Registry) :
    (applyPhysics reg).map Prod.fst = reg.map Prod.fst := by
  induction reg with
  | nil => rfl
  | cons ce rest ih =>
      by_cases h : ce.2.connected <;> simp [applyPhysics, h] at ih ⊢ <;> exact ih

lemma applyPhysics_mem {reg : Registry} {c : Conn} {e : Entity}
    (h : (c, e) ∈ reg) (hc : e.connected = true) :
    (c, stepEntity e) ∈ applyPhysics reg := by
  unfold applyPhysics
  have := List.mem_map_of_mem
    (fun ce : Conn × Entity =>
      if ce.2.connected then (ce.1, stepEntity ce.2) else ce) h
  simpa [hc] using this

lemma fanOut_cons (wf : Conn → Bool) (data : String) (c : Conn) (e : Entity)
    (rest : Registry) :
    fanOut wf data ((c, e) :: rest) =
      if e.connected then
        if wf c then
          ((c, disconnect e) :: (fanOut wf data rest).1, (fanOut wf data rest).2)
        else
          ((c, e) :: (fanOut wf data rest).1, (c, data) :: (fanOut wf data rest).2)
      else ((c, e) :: (fanOut wf data rest).1, (fanOut wf data rest).2) :=
  rfl

lemma fanOut_map_fst (wf : Conn → Bool) (data : String) (reg : Registry) :
    ((fanOut wf data reg).1).map Prod.fst = reg.map Prod.fst := by
  induction reg with
  | nil => rfl
  | cons ce rest ih =>
      obtain ⟨c, e⟩ := ce
      rw [fanOut_cons]
      by_cases h1 : e.connected
      · by_cases h2 : wf c <;> simp [h1, h2, disconnect, ih]
      · simp [h1, ih]

lemma fanOut_mem_write (wf : Conn → Bool) (data : String) (c : Conn) (e : Entity) :
    ∀ reg : Registry, (c, e) ∈ reg → e.connected = true → wf c = false →
      (c, data) ∈ (fanOut wf data reg).2 := by
  intro reg
  induction reg with
  | nil => intro h _ _; simp at h
  | cons ce rest ih =>
      intro hmem hconn hwf
      obtain ⟨c', e'⟩ := ce
      rw [fanOut_cons]
      rcases List.mem_cons.mp hmem with heq | htail
      · cases heq
        simp [hconn, hwf]
      · have hrec := ih htail hconn hwf
        by_cases h1 : e'.connected
        · by_cases h2 : wf c'
          · simp [h1, h2]; exact hrec
          · simp [h1, h2]; right; exact hrec
        · simp [h1]; exact hrec

lemma fanOut_mem_marked (wf : Conn → Bool) (data : String) (c : Conn) (e : Entity) :
    ∀ reg : Registry, (c, e) ∈ reg → e.connected = true → wf c = true →
      (c, disconnect e) ∈ (fanOut wf data reg).1 := by
  intro reg
  induction reg with
  | nil => intro h _ _; simp at h
  | cons ce rest ih =>
      intro hmem hconn hwf
      obtain ⟨c', e'⟩ := ce
      rw [fanOut_cons]
      rcases List.mem_cons.mp hmem with heq | htail
      · cases heq
        simp [hconn, hwf]
      · have hrec := ih htail hconn hwf
        by_cases h1 : e'.connected
        · by_cases h2 : wf c'
          · simp [h1, h2]; right; exact hrec
          · simp [h1, h2]; right; exact hrec
        · simp [h1]; right; exact hrec

lemma getEntry?_delEntry (reg : Registry) (c : Conn) :
    getEntry? (delEntry reg c) c = none := by
  induction reg with
  | nil => rfl
  | cons ce rest ih =>
      obtain ⟨c', e'⟩ := ce
      by_cases h : c' = c
      · simp [delEntry, h, ih]
      · simp [delEntry, getEntry?, h, ih]

lemma tick_of_marshal_some {marshal : ClientUpdate → Option String}
    {wf : Conn → Bool} {reg : Registry} {data : String}
    (h : marshal ⟨snapshot (applyPhysics reg)⟩ = some data) :
    tick marshal wf reg = fanOut wf data (applyPhysics reg) := by
  simp only [tick, h]

/-- C6: if serialization of the snapshot fails, the tick performs no
write at all, and the registry is left exactly as the already-applied
physics step produced it (no rollback). -/
theorem marshal_failure_keeps_physics
    (marshal : ClientUpdate → Option String) (wf : Conn → Bool) (reg : Registry)
    (h : marshal ⟨snapshot (applyPhysics reg)⟩ = none) :
    tick marshal wf reg = (applyPhysics reg, []) := by
  simp only [tick, h]

theorem marshal_failure_keeps_physics_witness :
    (fun _ : ClientUpdate => (none : Option String)) ⟨snapshot (applyPhysics [])⟩
        = none ∧
    tick (fun _ => none) (fun _ => false) [] = (applyPhysics [], []) :=
  ⟨rfl, marshal_failure_keeps_physics _ _ _ rfl⟩

/-- C5: when some session's write fails mid-tick, every other entity
that is connected at fan-out time still has the serialized snapshot
written to its connection, and the tick completes over the whole
registry (the key set is unchanged). -/
theorem fanout_resilience
    (marshal : ClientUpdate → Option String) (wf : Conn → Bool) (reg : Registry)
    (data : String) (c0 c : Conn) (e : Entity)
    (hm : marshal ⟨snapshot (applyPhysics reg)⟩ = some data)
    (_hfail : wf c0 = true)
    (hmem : (c, e) ∈ applyPhysics reg) (hconn : e.connected = true)
    (hok : wf c = false) :
    (c, data) ∈ (tick marshal wf reg).2 ∧
    ((tick marshal wf reg).1).map Prod.fst = reg.map Prod.fst := by
  rw [tick_of_marshal_some hm]
  exact ⟨fanOut_mem_write wf data c e _ hmem hconn hok,
    by rw [fanOut_map_fst, applyPhysics_map_fst]⟩

theorem fanout_resilience_witness :
    ((1 : Conn), "d") ∈
      (tick (fun _ => some "d") (fun c => decide (c = 0))
        [(0, ⟨"a", ⟨0, 0⟩, ⟨0, 0⟩, true⟩), (1, ⟨"a", ⟨0, 0⟩, ⟨0, 0⟩, true⟩)]).2 :=
  (fanout_resilience _ _ _ "d" 0 1 (stepEntity ⟨"a", ⟨0, 0⟩, ⟨0, 0⟩, true⟩)
    rfl rfl (by simp [applyPhysics]) rfl rfl).1

/-- C4: a failed write marks that session's entity disconnected in the
registry but does not remove it: the entry survives the tick with
connected set to false, still appears in the snapshot taken from the
post-tick registry, the key set is unchanged, and only deregistration
(the read loop's path) removes a key. -/
theorem write_failure_marks_disconnected
    (marshal : ClientUpdate → Option String) (wf : Conn → Bool) (reg : Registry)
    (data : String) (c : Conn) (e : Entity)
    (hm : marshal ⟨snapshot (applyPhysics reg)⟩ = some data)
    (hmem : (c, e) ∈ applyPhysics reg) (hconn : e.connected = true)
    (hfail : wf c = true) :
    (c, disconnect e) ∈ (tick marshal wf reg).1 ∧
    disconnect e ∈ snapshot (tick marshal wf reg).1 ∧
    ((tick marshal wf reg).1).map Prod.fst = reg.map Prod.fst ∧
    ∀ reg2 : Registry, getEntry? (delEntry reg2 c) c = none := by
  rw [tick_of_marshal_some hm]
  have h1 := fanOut_mem_marked wf data c e _ hmem hconn hfail
  exact ⟨h1, List.mem_map_of_mem Prod.snd h1,
    by rw [fanOut_map_fst, applyPhysics_map_fst],
    fun reg2 => getEntry?_delEntry reg2 c⟩

theorem write_failure_marks_disconnected_witness :
    ((0 : Conn), disconnect (stepEntity ⟨"a", ⟨0, 0⟩, ⟨0, 0⟩, true⟩)) ∈
      (tick (fun _ => some "d") (fun c => decide (c = 0))
        [(0, ⟨"a", ⟨0, 0⟩, ⟨0, 0⟩, true⟩), (1, ⟨"a", ⟨0, 0⟩, ⟨0, 0⟩, true⟩)]).1 :=
  (write_failure_marks_disconnected _ _ _ "d" 0
    (stepEntity ⟨"a", ⟨0, 0⟩, ⟨0, 0⟩, true⟩)
    rfl (by simp [applyPhysics]) rfl rfl).1

/-! ### Registration -/

lemma getEntry?_setEntry (reg : Registry) (c : Conn) (e : Entity) :
    getEntry? (setEntry reg c e) c = some e := by
  induction reg with
  | nil => simp [setEntry, getEntry?]
  | cons ce rest ih =>
      obtain ⟨c', e'⟩ := ce
      by_cases h : c' = c
      · simp [setEntry, getEntry?, h]
      · simp [setEntry, getEntry?, h, ih]

/-- C7: registration creates an entity with polar-sampled position
(angle an affine image of a uniform [0,1) draw onto [0, 2*pi), radius
an affine image of a uniform [0,1) draw onto [MinDistance,
MaxDistance), i.e. uniform in radius rather than in area), zero
velocity, connected set, and the timestamp-derived id string; the
entity is inserted into the registry under its connection, and the
operation is total. -/
theorem register_properties (reg : Registry) (c : Conn) (ts : ℕ) (u1 u2 : ℝ)
    (h10 : 0 ≤ u1) (h11 : u1 < 1) (h20 : 0 ≤ u2) (h21 : u2 < 1) :
    (newEntity ts u1 u2).velocity = ⟨0, 0⟩ ∧
    (newEntity ts u1 u2).connected = true ∧
    (newEntity ts u1 u2).id = decRepr ts ∧
    (newEntity ts u1 u2).position =
      ⟨(MinDistance + u2 * (MaxDistance - MinDistance)) *
          Real.cos (u1 * 2 * Real.pi),
        (MinDistance + u2 * (MaxDistance - MinDistance)) *
          Real.sin (u1 * 2 * Real.pi)⟩ ∧
    vecMag (newEntity ts u1 u2).position =
      MinDistance + u2 * (MaxDistance - MinDistance) ∧
    MinDistance ≤ vecMag (newEntity ts u1 u2).position ∧
    vecMag (newEntity ts u1 u2).position < MaxDistance ∧
    0 ≤ u1 * 2 * Real.pi ∧ u1 * 2 * Real.pi < 2 * Real.pi ∧
    register reg c ts u1 u2 = setEntry reg c (newEntity ts u1 u2) ∧
    getEntry? (register reg c ts u1 u2) c = some (newEntity ts u1 u2) := by
  have hMin : MinDistance = 10 := rfl
  have hMax : MaxDistance = 100 := rfl
  have hrpos : (0 : ℝ) < MinDistance + u2 * (MaxDistance - MinDistance) := by
    rw [hMin, hMax]; nlinarith
  have hpos : (newEntity ts u1 u2).position =
      ⟨(MinDistance + u2 * (MaxDistance - MinDistance)) *
          Real.cos (u1 * 2 * Real.pi),
        (MinDistance + u2 * (MaxDistance - MinDistance)) *
          Real.sin (u1 * 2 * Real.pi)⟩ := rfl
  have hmag : vecMag (newEntity ts u1 u2).position =
      MinDistance + u2 * (MaxDistance - MinDistance) := by
    rw [hpos]
    unfold vecMag
    dsimp only
    apply sqrt_eval (le_of_lt hrpos)
    have htrig := Real.sin_sq_add_cos_sq (u1 * 2 * Real.pi)
    linear_combination (-((MinDistance + u2 * (MaxDistance - MinDistance)) *
      (MinDistance + u2 * (MaxDistance - MinDistance)))) * htrig
  refine ⟨rfl, rfl, rfl, hpos, hmag, ?_, ?_, ?_, ?_, rfl,
    getEntry?_setEntry reg c (newEntity ts u1 u2)⟩
  · rw [hmag, hMin, hMax]; nlinarith
  · rw [hmag, hMin, hMax]; nlinarith
  · positivity
  · have hpi := Real.pi_pos
    nlinarith

theorem register_properties_witness :
    (0 : ℝ) ≤ 0 ∧ (0 : ℝ) < 1 ∧
    vecMag (newEntity 7 0 0).position = MinDistance + 0 * (MaxDistance - MinDistance) :=
  ⟨le_rfl, by norm_num,
    (register_properties [] 0 7 0 0 le_rfl (by norm_num) le_rfl (by norm_num)).2.2.2.2.1⟩

/-! ### Decimal id strings and registry uniqueness -/

lemma ofDecDigits_digitsRev : ∀ fuel n : ℕ, n ≤ fuel →
    ofDecDigits (digitsRev fuel n) = n := by
  intro fuel
  induction fuel with
  | zero =>
      intro n hn
      interval_cases n
      rfl
  | succ fuel ih =>
      intro n hn
      match n with
      | 0 => rfl
      | m + 1 =>
          have hdiv : (m + 1) / 10 ≤ fuel := by
            have h1 : (m + 1) / 10 < m + 1 :=
              Nat.div_lt_self (Nat.succ_pos m) (by norm_num)
            omega
          show ofDecDigits ((m + 1) % 10 :: digitsRev fuel ((m + 1) / 10)) = m + 1
          show (m + 1) % 10 + 10 * ofDecDigits (digitsRev fuel ((m + 1) / 10)) = m + 1
          rw [ih _ hdiv]
          exact Nat.mod_add_div (m + 1) 10

lemma digitsRev_lt : ∀ fuel n d : ℕ, d ∈ digitsRev fuel n → d < 10 := by
  intro fuel
  induction fuel with
  | zero => intro n d h; simp [digitsRev] at h
  | succ fuel ih =>
      intro n d h
      match n with
      | 0 => simp [digitsRev] at h
      | m + 1 =>
          rcases List.mem_cons.mp h with heq | htail
          · rw [heq]; exact Nat.mod_lt _ (by norm_num)
          · exact ih _ _ htail

lemma decDigits_inj {m n : ℕ} (h : decDigits m = decDigits n) : m = n := by
  have hm := ofDecDigits_digitsRev m m le_rfl
  have hn := ofDecDigits_digitsRev n n le_rfl
  rw [← hm, ← hn]
  unfold decDigits at h
  rw [h]

lemma digitChar_inj {d1 d2 : ℕ} (h1 : d1 < 10) (h2 : d2 < 10)
    (h : digitChar d1 = digitChar d2) : d1 = d2 := by
  interval_cases d1 <;> interval_cases d2 <;> revert h <;> decide

lemma map_digitChar_inj : ∀ l1 l2 : List ℕ, (∀ d ∈ l1, d < 10) →
    (∀ d ∈ l2, d < 10) → l1.map digitChar = l2.map digitChar → l1 = l2 := by
  intro l1
  induction l1 with
  | nil =>
      intro l2 _ _ h
      cases l2 with
      | nil => rfl
      | cons d l => simp at h
  | cons d1 t1 ih =>
      intro l2 hb1 hb2 h
      cases l2 with
      | nil => simp at h
      | cons d2 t2 =>
          simp only [List.map_cons, List.cons.injEq] at h
          have hd := digitChar_inj (hb1 d1 (by simp)) (hb2 d2 (by simp)) h.1
          have ht := ih t2 (fun d hd' => hb1 d (by simp [hd']))
            (fun d hd' => hb2 d (by simp [hd'])) h.2
          rw [hd, ht]

lemma decRepr_inj {m n : ℕ} (h : decRepr m = decRepr n) : m = n := by
  have hbm : ∀ d ∈ (decDigits m).reverse, d < 10 := fun d hd =>
    digitsRev_lt m m d (List.mem_reverse.mp hd)
  have hbn : ∀ d ∈ (decDigits n).reverse, d < 10 := fun d hd =>
    digitsRev_lt n n d (List.mem_reverse.mp hd)
  unfold decRepr at h
  by_cases hm : m = 0 <;> by_cases hn : n = 0
  · rw [hm, hn]
  · rw [if_pos hm, if_neg hn] at h
    exfalso
    have hdata : ['0'] = (decDigits n).reverse.map digitChar := by
      have := congrArg String.data h
      simpa using this
    have h0 : List.map digitChar [0] = (decDigits n).reverse.map digitChar := hdata
    have hrev : ([0] : List ℕ) = (decDigits n).reverse :=
      map_digitChar_inj [0] (decDigits n).reverse (by norm_num) hbn h0
    have hdig : decDigits n = [0] := by
      have := congrArg List.reverse hrev
      simpa using this.symm
    have : n = 0 := by
      have hofd := ofDecDigits_digitsRev n n le_rfl
      rw [show digitsRev n n = decDigits n from rfl, hdig] at hofd
      simpa [ofDecDigits] using hofd.symm
    exact hn this
  · rw [if_neg hm, if_pos hn] at h
    exfalso
    have hdata : (decDigits m).reverse.map digitChar = ['0'] := by
      have := congrArg String.data h
      simpa using this
    have h0 : (decDigits m).reverse.map digitChar = List.map digitChar [0] := hdata
    have hrev : (decDigits m).reverse = ([0] : List ℕ) :=
      map_digitChar_inj (decDigits m).reverse [0] hbm (by norm_num) h0
    have hdig : decDigits m = [0] := by
      have := congrArg List.reverse hrev
      simpa using this
    have : m = 0 := by
      have hofd := ofDecDigits_digitsRev m m le_rfl
      rw [show digitsRev m m = decDigits m from rfl, hdig] at hofd
      simpa [ofDecDigits] using hofd.symm
    exact hm this
  · rw [if_neg hm, if_neg hn] at h
    have hdata : (decDigits m).reverse.map digitChar =
        (decDigits n).reverse.map digitChar := by
      have := congrArg String.data h
      simpa using this
    have hrev := map_digitChar_inj _ _ hbm hbn hdata
    have hdig : decDigits m = decDigits n := by
      have := congrArg List.reverse hrev
      simpa using this
    exact decDigits_inj hdig

lemma mem_setEntry : ∀ (reg : Registry) (c : Conn) (e : Entity) (x : Conn × Entity),
    x ∈ setEntry reg c e → x = (c, e) ∨ x ∈ reg := by
  intro reg c e
  induction reg with
  | nil =>
      intro x h
      simp [setEntry] at h
      exact Or.inl h
  | cons ce rest ih =>
      intro x h
      obtain ⟨c', e'⟩ := ce
      by_cases hc : c' = c
      · rw [show setEntry ((c', e') :: rest) c e = (c, e) :: rest by
          simp [setEntry, hc]] at h
        rcases List.mem_cons.mp h with h1 | h1
        · exact Or.inl h1
        · exact Or.inr (List.mem_cons_of_mem _ h1)
      · rw [show setEntry ((c', e') :: rest) c e = (c', e') :: setEntry rest c e by
          simp [setEntry, hc]] at h
        rcases List.mem_cons.mp h with h1 | h1
        · exact Or.inr (by simp [h1])
        · rcases ih x h1 with h2 | h2
          · exact Or.inl h2
          · exact Or.inr (List.mem_cons_of_mem _ h2)

lemma keys_setEntry_nodup : ∀ (reg : Registry) (c : Conn) (e : Entity),
    (reg.map Prod.fst).Nodup → ((setEntry reg c e).map Prod.fst).Nodup := by
  intro reg c e
  induction reg with
  | nil => intro _; simp [setEntry]
  | cons ce rest ih =>
      intro hnd
      obtain ⟨c', e'⟩ := ce
      simp only [List.map_cons, List.nodup_cons] at hnd
      by_cases hc : c' = c
      · rw [show setEntry ((c', e') :: rest) c e = (c, e) :: rest by
          simp [setEntry, hc]]
        simp only [List.map_cons, List.nodup_cons]
        refine ⟨?_, hnd.2⟩
        rw [← hc]
        exact hnd.1
      · simp only [setEntry, if_neg hc, List.map_cons, List.nodup_cons]
        refine ⟨?_, ih hnd.2⟩
        intro hmem
        rcases List.mem_map.mp hmem with ⟨x, hx, hx1⟩
        rcases mem_setEntry rest c e x hx with h1 | h1
        · have : c = c' := by rw [h1] at hx1; exact hx1
          exact hc this.symm
        · exact hnd.1 (List.mem_map.mpr ⟨x, h1, hx1⟩)

lemma ids_setEntry_nodup : ∀ (reg : Registry) (c : Conn) (e : Entity),
    (reg.map fun ce => ce.2.id).Nodup →
    e.id ∉ (reg.map fun ce => ce.2.id) →
    ((setEntry reg c e).map fun ce => ce.2.id).Nodup := by
  intro reg c e
  induction reg with
  | nil => intro _ _; simp [setEntry]
  | cons ce rest ih =>
      intro hnd hnotin
      obtain ⟨c', e'⟩ := ce
      simp only [List.map_cons, List.nodup_cons] at hnd
      simp only [List.map_cons, List.mem_cons] at hnotin
      push_neg at hnotin
      by_cases hc : c' = c
      · simp only [setEntry, if_pos hc, List.map_cons, List.nodup_cons]
        exact ⟨hnotin.2, hnd.2⟩
      · simp only [setEntry, if_neg hc, List.map_cons, List.nodup_cons]
        refine ⟨?_, ih hnd.2 hnotin.2⟩
        intro hmem
        rcases List.mem_map.mp hmem with ⟨x, hx, hx1⟩
        rcases mem_setEntry rest c e x hx with h1 | h1
        · rw [h1] at hx1
          exact hnotin.1 hx1
        · exact hnd.1 (List.mem_map.mpr ⟨x, h1, hx1⟩)

lemma delEntry_sublist : ∀ (reg : Registry) (c : Conn),
    List.Sublist (delEntry reg c) reg := by
  intro reg c
  induction reg with
  | nil => simp [delEntry]
  | cons ce rest ih =>
      obtain ⟨c', e'⟩ := ce
      by_cases h : c' = c
      · simp only [delEntry, if_pos h]
        exact ih.cons _
      · simp only [delEntry, if_neg h]
        exact ih.cons₂ _

lemma run_aux : ∀ (ops : List Op) (reg : Registry),
    ((reg.map fun ce => ce.2.id)).Nodup →
    (reg.map Prod.fst).Nodup →
    (allTs ops).Nodup →
    (∀ ce ∈ reg, ∀ t ∈ allTs ops, ce.2.id ≠ decRepr t) →
    (((ops.foldl applyOp reg).map fun ce => ce.2.id)).Nodup ∧
    ((ops.foldl applyOp reg).map Prod.fst).Nodup := by
  intro ops
  induction ops with
  | nil => intro reg h1 h2 _ _; exact ⟨h1, h2⟩
  | cons op rest ih =>
      intro reg h1 h2 h3 h4
      cases op with
      | reg c ts u1 u2 =>
          have hallTs : allTs (Op.reg c ts u1 u2 :: rest) = ts :: allTs rest := by
            simp [allTs, regTs]
          rw [hallTs] at h3 h4
          rw [List.foldl_cons]
          have hstep : applyOp reg (Op.reg c ts u1 u2) =
              setEntry reg c (newEntity ts u1 u2) := rfl
          rw [hstep]
          have hts : ts ∉ allTs rest := (List.nodup_cons.mp h3).1
          apply ih
          · apply ids_setEntry_nodup _ _ _ h1
            intro hmem
            rcases List.mem_map.mp hmem with ⟨x, hx, hid⟩
            exact h4 x hx ts (List.mem_cons_self _ _) hid
          · exact keys_setEntry_nodup _ _ _ h2
          · exact (List.nodup_cons.mp h3).2
          · intro x hx t ht
            rcases mem_setEntry reg c (newEntity ts u1 u2) x hx with hEq | hIn
            · rw [hEq]
              show decRepr ts ≠ decRepr t
              intro hco
              exact hts (decRepr_inj hco ▸ ht)
            · exact h4 x hIn t (List.mem_cons_of_mem _ ht)
      | dereg c =>
          have hallTs : allTs (Op.dereg c :: rest) = allTs rest := by
            simp [allTs, regTs]
          rw [hallTs] at h3 h4
          rw [List.foldl_cons]
          have hstep : applyOp reg (Op.dereg c) = delEntry reg c := rfl
          rw [hstep]
          have hsub := delEntry_sublist reg c
          apply ih
          · exact List.Nodup.sublist (hsub.map _) h1
          · exact List.Nodup.sublist (hsub.map _) h2
          · exact h3
          · intro x hx t ht
            exact h4 x (hsub.subset hx) t ht

/-- C9 counterexample: two registrations that draw the same timestamp
(5 nanoseconds) on distinct handles leave two simultaneously-present
entities with the identical id string "5", so id uniqueness fails. -/
theorem registry_ids_cex :
    (run [Op.reg 0 5 0 0, Op.reg 1 5 0 0]).map (fun ce => (ce.1, ce.2.id)) =
      [(0, "5"), (1, "5")] ∧
    ¬ ((run [Op.reg 0 5 0 0, Op.reg 1 5 0 0]).map fun ce => ce.2.id).Nodup := by
  constructor <;> decide

/-- C9 (corrected): over any serialized sequence of registrations and
deregistrations in which the registrations draw pairwise-distinct
timestamps, no two entities in the registry ever share an id, and no
handle is ever mapped to more than one entity. -/
theorem registry_uniqueness_amended (ops : List Op)
    (h : (allTs ops).Nodup) :
    (((run ops).map fun ce => ce.2.id)).Nodup ∧
    ((run ops).map Prod.fst).Nodup :=
  run_aux ops [] (by simp) (by simp) h (by simp)

theorem registry_uniqueness_amended_witness :
    (allTs [Op.reg 0 5 0 0, Op.reg 1 6 0 0]).Nodup ∧
    (((run [Op.reg 0 5 0 0, Op.reg 1 6 0 0]).map fun ce => ce.2.id)).Nodup :=
  ⟨by decide, (registry_uniqueness_amended _ (by decide)).1⟩

end SpaceWeb
